/-
  Verification of the Safe-RL-Benchmark core against its specification.

  The definitions below are shallow embeddings of the Python source:
  * `workerValues`, `workerAdvantages` embed the accumulation loop of
    `_Worker.run` (SafeRLBench/algo/A3C.py, lines 117-131);
  * `mcUpdate`, `mcReset`, `mcRollout` embed `GeneralMountainCar._update`,
    `_reset` and `_rollout` (SafeRLBench/envs/general_mountaincar.py);
  * `globalNorm`, `clipByGlobalNorm` embed the documented semantics of
    `tf.clip_by_global_norm` as invoked by `_Worker.make_train_op`;
  * `a3cInit` embeds the prerequisite checks of `A3C.__init__`;
  * `monitorScope` embeds the `@contextmanager` generators of monitor.py;
  * `runApplies` models the Parameter Store's serialized global-step
    counter (spec sections 3 and 4.1).

  Numeric code is embedded polymorphically over a `LinearOrderedField`
  where the Python source only uses field operations and comparisons, so
  that theorems can be instantiated both at `ℝ` and, for concrete
  evaluation, at `ℚ`.
-/
import Mathlib

/-!
## Worker accumulation loop (A3C.py, `_Worker.run`, lines 117-131)

The Python loop is

    value = 0.
    for (action, state, reward) in trace:
        value = reward + self.discount * value
        value_pred = sess.run(self.local_v_net.V_est, {self.local_v_net.X: [state]})
        advantage = reward - value_pred
        advantages.append(advantage); values.append(value)
        states.append(state); actions.append(action)

A trace element is an (action, state, reward) triple; the value-network
prediction is abstracted as a function `V` from states to scalars (the
local value snapshot).  Note the loop walks the trace in forward order.
-/

/-- Embeds the running `value` accumulator of the loop: each step pushes
`reward + discount * value` and carries the new value forward. -/
def workerValuesGo {A S α : Type} [LinearOrderedField α] (discount : α) :
    α → List (A × S × α) → List α
  | _, [] => []
  | v, x :: rest =>
      (x.2.2 + discount * v) :: workerValuesGo discount (x.2.2 + discount * v) rest

/-- The `values` list produced by `_Worker.run` for a trace: forward
accumulation starting from `value = 0`. -/
def workerValues {A S α : Type} [LinearOrderedField α] (discount : α)
    (trace : List (A × S × α)) : List α :=
  workerValuesGo discount 0 trace

/-- The `advantages` list produced by `_Worker.run`: for each step,
`reward - value_pred` where `value_pred` is the local value network `V`
evaluated at that step's state. -/
def workerAdvantages {A S α : Type} [LinearOrderedField α] (V : S → α)
    (trace : List (A × S × α)) : List α :=
  trace.map (fun x => x.2.2 - V x.2.1)

theorem workerValuesGo_length {A S α : Type} [LinearOrderedField α] (discount : α) :
    ∀ (trace : List (A × S × α)) (v : α),
      (workerValuesGo discount v trace).length = trace.length := by
  intro trace
  induction trace with
  | nil => intro v; rfl
  | cons x rest ih => intro v; simp [workerValuesGo, ih]

theorem workerValues_length {A S α : Type} [LinearOrderedField α] (discount : α)
    (trace : List (A × S × α)) :
    (workerValues discount trace).length = trace.length :=
  workerValuesGo_length discount trace 0

theorem workerValuesGo_get {A S α : Type} [LinearOrderedField α] (discount : α) :
    ∀ (trace : List (A × S × α)) (v : α) (t : ℕ)
      (h1 : t + 1 < trace.length)
      (h2 : t + 1 < (workerValuesGo discount v trace).length),
      (workerValuesGo discount v trace).get ⟨t + 1, h2⟩ =
        (trace.get ⟨t + 1, h1⟩).2.2 +
          discount * (workerValuesGo discount v trace).get ⟨t, Nat.lt_of_succ_lt h2⟩ := by
  intro trace
  induction trace with
  | nil => intro v t h1 h2; exact absurd h1 (by simp)
  | cons x rest ih =>
      intro v t h1 h2
      cases t with
      | zero =>
          cases rest with
          | nil => exact absurd h1 (by simp)
          | cons y rest' => simp [workerValuesGo, List.get]
      | succ t' =>
          have h1' : t' + 1 < rest.length := by
            simpa using Nat.lt_of_succ_lt_succ h1
          have h2' : t' + 1 <
              (workerValuesGo discount (x.2.2 + discount * v) rest).length := by
            have := Nat.lt_of_succ_lt_succ h2
            simpa [workerValuesGo] using this
          simpa [workerValuesGo, List.get] using
            ih (x.2.2 + discount * v) t' h1' h2'

/-- Example trace used to exhibit the forward recurrence concretely. -/
def exTraceFwd : List (Unit × Unit × ℚ) := [((), (), 1), ((), (), 2)]

/-- Example trace whose last reward is 0, separating forward from
backward accumulation. -/
def exTraceCex : List (Unit × Unit × ℚ) := [((), (), 1), ((), (), 0)]

/-- C1 counterexample: with discount `1/2` (which satisfies `0 ≤ γ < 1`)
and the two-step trace with rewards `[1, 0]`, the worker's computed value
sequence ends in `1/2`, not in the last reward `0`; so the claimed
backward recurrence with `return[last] = reward[last]` fails on the code,
which accumulates forward over the trace. -/
theorem a3c_returns_backward_cex :
    0 ≤ (1 / 2 : ℚ) ∧ (1 / 2 : ℚ) < 1 ∧
      (exTraceCex.map (fun x => x.2.2)).getLast? = some 0 ∧
      (workerValues (1 / 2 : ℚ) exTraceCex).getLast? = some (1 / 2) ∧
      (1 / 2 : ℚ) ≠ 0 := by
  refine ⟨by norm_num, by norm_num, by decide, ?_, by norm_num⟩
  norm_num [workerValues, workerValuesGo, exTraceCex]

/-- C1 (amended): for every discount `0 ≤ γ < 1` and every trace, the
value sequence computed by `_Worker.run` has the trace's length and
satisfies the FORWARD recurrence `value[0] = reward[0]` and
`value[t+1] = reward[t+1] + γ * value[t]` (the loop walks the trace in
forward order, accumulating `value = reward + discount * value`). -/
theorem a3c_returns_forward_recurrence {A S : Type} {α : Type}
    [LinearOrderedField α] (discount : α) (trace : List (A × S × α))
    (hd0 : 0 ≤ discount) (hd1 : discount < 1) :
    (workerValues discount trace).length = trace.length ∧
    (workerValues discount trace).head? = (trace.map (fun x => x.2.2)).head? ∧
    (∀ (t : ℕ) (h1 : t + 1 < trace.length)
       (h2 : t + 1 < (workerValues discount trace).length),
       (workerValues discount trace).get ⟨t + 1, h2⟩ =
         (trace.get ⟨t + 1, h1⟩).2.2 +
           discount * (workerValues discount trace).get ⟨t, Nat.lt_of_succ_lt h2⟩) := by
  refine ⟨workerValues_length discount trace, ?_, ?_⟩
  · cases trace with
    | nil => rfl
    | cons x rest => simp [workerValues, workerValuesGo]
  · intro t h1 h2
    exact workerValuesGo_get discount trace 0 t h1 h2

/-- Witness for `a3c_returns_forward_recurrence`: at discount `1/2` and
the trace with rewards `[1, 2]`, the recurrence yields
`value[1] = 2 + (1/2) * value[0]`. -/
theorem a3c_returns_forward_recurrence_witness :
    (workerValues (1 / 2 : ℚ) exTraceFwd).get ⟨1, by decide⟩ =
      (exTraceFwd.get ⟨1, by decide⟩).2.2 +
        (1 / 2 : ℚ) * (workerValues (1 / 2 : ℚ) exTraceFwd).get ⟨0, by decide⟩ :=
  (a3c_returns_forward_recurrence (1 / 2 : ℚ) exTraceFwd (by norm_num)
    (by norm_num)).2.2 0 (by decide) (by decide)

/-- Example value snapshot and one-step trace for the advantage loop. -/
def exValueFn : Unit → ℚ := fun _ => 3

/-- Example one-step trace with reward 5 for the advantage loop. -/
def exTraceAdv : List (Unit × Unit × ℚ) := [((), (), 5)]

/-- C3: the advantage computed by `_Worker.run` at step `t` is the
single-step reward observed at `t` minus the local value snapshot `V`
evaluated at step `t`'s state (not the full discounted return). -/
theorem a3c_advantage_one_step {A S : Type} {α : Type} [LinearOrderedField α]
    (V : S → α) (trace : List (A × S × α)) :
    (workerAdvantages V trace).length = trace.length ∧
    ∀ (t : ℕ) (h1 : t < trace.length)
      (h2 : t < (workerAdvantages V trace).length),
      (workerAdvantages V trace).get ⟨t, h2⟩ =
        (trace.get ⟨t, h1⟩).2.2 - V (trace.get ⟨t, h1⟩).2.1 := by
  constructor
  · simp [workerAdvantages]
  · intro t h1 h2
    simp [workerAdvantages]

/-- Witness for `a3c_advantage_one_step`: with constant value snapshot 3
and a one-step trace with reward 5 the advantage at step 0 is `5 - 3`. -/
theorem a3c_advantage_one_step_witness :
    (workerAdvantages exValueFn exTraceAdv).get ⟨0, by decide⟩ =
      (exTraceAdv.get ⟨0, by decide⟩).2.2 - exValueFn (exTraceAdv.get ⟨0, by decide⟩).2.1 :=
  (a3c_advantage_one_step exValueFn exTraceAdv).2 0 (by decide) (by decide)

/-!
## General mountain car (general_mountaincar.py)

`GeneralMountainCar._update` (lines 84-105), `_reset` (107-108) and
`_rollout` (113-121).  The contour functions `hx` (height) and `dydx`
(its derivative) are configurable in the constructor and appear as
fields; the default contour instantiates them with `-cos(pi x)` over ℝ.
Actions are scalars (the declared action space has shape `(1,)` and the
size-1 extraction `action = action_in[0]` is the identity on the value).
The `reset`/`update` wrappers of `EnvironmentBase` delegate to
`_reset`/`_update` around monitoring hooks and do not change values.
-/

/-- Clamping as written in the source: `max(min(x, hi), lo)`. -/
def clampTo {α : Type} [LinearOrder α] (lo hi x : α) : α :=
  max (min x hi) lo

/-- Parameters of a `GeneralMountainCar` instance.  `lower`/`upper` are
the declared state-space bounds (position, velocity); `actionLower` and
`actionUpper` are the declared action-space bounds (default `[-1, 1]`). -/
structure MCEnv (α : Type) where
  lower : α × α
  upper : α × α
  actionLower : α
  actionUpper : α
  initialState : α × α
  dydx : α → α
  hx : α → α
  gravitation : α
  power : α
  goal : α
  horizon : ℕ

/-- Embeds `GeneralMountainCar._update`: clamp the action to the literal
interval `[-1, 1]`, integrate velocity and position, clamp both to the
state-space bounds, and return `(action_in, new_state, reward)` where the
reward is `hx(position) - 1` at the new state. -/
def mcUpdate {α : Type} [LinearOrderedField α] (env : MCEnv α)
    (s : α × α) (action : α) : α × (α × α) × α :=
  let actionIn := clampTo (-1) 1 action
  let velocity := s.2 + (actionIn * env.power - env.dydx s.1 * env.gravitation)
  let position := s.1 + velocity
  let velocity2 := clampTo env.lower.2 env.upper.2 velocity
  let position2 := clampTo env.lower.1 env.upper.1 position
  (actionIn, (position2, velocity2), env.hx position2 - 1)

/-- Embeds `GeneralMountainCar._reset`: the state becomes a copy of the
initial state. -/
def mcReset {α : Type} (env : MCEnv α) : α × α :=
  env.initialState

/-- The loop body of `_rollout`, recursing on the remaining iteration
count of `range(self.horizon)`: select an action, step, append the step,
and return early when `position >= goal` holds for the new state. -/
def mcRolloutGo {α : Type} [LinearOrderedField α] (env : MCEnv α)
    (policy : α × α → α) : α × α → ℕ → List (α × (α × α) × α)
  | _, 0 => []
  | s, n + 1 =>
      let step := mcUpdate env s (policy s)
      if env.goal ≤ step.2.1.1 then [step]
      else step :: mcRolloutGo env policy step.2.1 n

/-- Embeds `GeneralMountainCar._rollout`: reset, then run the loop for at
most `horizon` iterations. -/
def mcRollout {α : Type} [LinearOrderedField α] (env : MCEnv α)
    (policy : α × α → α) : List (α × (α × α) × α) :=
  mcRolloutGo env policy (mcReset env) env.horizon

/-- Iterated environment stepping: fold `mcUpdate` over a list of
actions, keeping the state component. -/
def mcSteps {α : Type} [LinearOrderedField α] (env : MCEnv α)
    (s : α × α) (actions : List α) : α × α :=
  actions.foldl (fun st a => (mcUpdate env st a).2.1) s

/-- A state lies within the declared state-space bounds componentwise. -/
def stateInBounds {α : Type} [LinearOrderedField α] (env : MCEnv α)
    (s : α × α) : Prop :=
  env.lower.1 ≤ s.1 ∧ s.1 ≤ env.upper.1 ∧ env.lower.2 ≤ s.2 ∧ s.2 ≤ env.upper.2

theorem clampTo_le {α : Type} [LinearOrder α] (lo hi x : α) (h : lo ≤ hi) :
    lo ≤ clampTo lo hi x ∧ clampTo lo hi x ≤ hi := by
  constructor
  · exact le_max_right _ _
  · exact max_le (min_le_right _ _) h

theorem mcRolloutGo_spec {α : Type} [LinearOrderedField α] (env : MCEnv α)
    (policy : α × α → α) :
    ∀ (n : ℕ) (s : α × α),
      (mcRolloutGo env policy s n).length ≤ n ∧
      ((mcRolloutGo env policy s n).length < n →
        ∃ st, (mcRolloutGo env policy s n).getLast? = some st ∧
          env.goal ≤ st.2.1.1) ∧
      ((∀ st ∈ mcRolloutGo env policy s n, st.2.1.1 < env.goal) →
        (mcRolloutGo env policy s n).length = n) := by
  intro n
  induction n with
  | zero =>
      intro s
      refine ⟨Nat.le_refl 0, ?_, ?_⟩
      · intro h; exact absurd h (by simp [mcRolloutGo])
      · intro _; rfl
  | succ n ih =>
      intro s
      by_cases hg : env.goal ≤ (mcUpdate env s (policy s)).2.1.1
      · refine ⟨?_, ?_, ?_⟩
        · simp [mcRolloutGo, hg]
        · intro _
          exact ⟨mcUpdate env s (policy s), by simp [mcRolloutGo, hg], hg⟩
        · intro hall
          have hmem : mcUpdate env s (policy s) ∈ mcRolloutGo env policy s (n + 1) := by
            simp [mcRolloutGo, hg]
          exact absurd hg (not_le.mpr (hall _ hmem))
      · have hrec : mcRolloutGo env policy s (n + 1) =
            mcUpdate env s (policy s) ::
              mcRolloutGo env policy (mcUpdate env s (policy s)).2.1 n := by
          simp [mcRolloutGo, hg]
        obtain ⟨ihlen, ihlast, ihfull⟩ := ih (mcUpdate env s (policy s)).2.1
        refine ⟨?_, ?_, ?_⟩
        · rw [hrec]; simpa using Nat.succ_le_succ ihlen
        · intro hlt
          rw [hrec] at hlt
          have hlt' : (mcRolloutGo env policy (mcUpdate env s (policy s)).2.1 n).length < n := by
            simpa using Nat.lt_of_succ_lt_succ hlt
          obtain ⟨st, hst, hstg⟩ := ihlast hlt'
          refine ⟨st, ?_, hstg⟩
          rw [hrec]
          cases hrest : mcRolloutGo env policy (mcUpdate env s (policy s)).2.1 n with
          | nil => rw [hrest] at hst; simp at hst
          | cons y rest' =>
              rw [hrest] at hst
              rw [List.getLast?_cons_cons]
              exact hst
        · intro hall
          rw [hrec]
          have hall' : ∀ st ∈ mcRolloutGo env policy (mcUpdate env s (policy s)).2.1 n,
              st.2.1.1 < env.goal := by
            intro st hst
            apply hall
            rw [hrec]
            exact List.mem_cons_of_mem _ hst
          simp [ihfull hall']

/-- C6: for every environment and policy, `_rollout` returns a trace of
length at most `horizon`; if it stops early the last recorded state has
reached the goal (`position >= goal`); and if no recorded state reaches
the goal it runs for exactly `horizon` steps. -/
theorem mc_rollout_length_goal {α : Type} [LinearOrderedField α]
    (env : MCEnv α) (policy : α × α → α) :
    (mcRollout env policy).length ≤ env.horizon ∧
    ((mcRollout env policy).length < env.horizon →
      ∃ st, (mcRollout env policy).getLast? = some st ∧ env.goal ≤ st.2.1.1) ∧
    ((∀ st ∈ mcRollout env policy, st.2.1.1 < env.goal) →
      (mcRollout env policy).length = env.horizon) :=
  mcRolloutGo_spec env policy env.horizon (mcReset env)

/-- A concrete flat-contour environment over ℚ used for evaluation. -/
def exEnvFlat : MCEnv ℚ :=
  { lower := (-10, -10)
    upper := (10, 10)
    actionLower := -1
    actionUpper := 1
    initialState := (0, 0)
    dydx := fun _ => 0
    hx := fun _ => 0
    gravitation := 0
    power := 1
    goal := 100
    horizon := 2 }

/-- Witness for `mc_rollout_length_goal`: in the flat environment with
unreachable goal 100 and horizon 2, the constant policy 1 never reaches
the goal, so the rollout has exactly 2 steps. -/
theorem mc_rollout_length_goal_witness :
    (mcRollout exEnvFlat (fun _ => 1)).length = exEnvFlat.horizon :=
  (mc_rollout_length_goal exEnvFlat (fun _ => 1)).2.2
    (by norm_num [mcRollout, mcRolloutGo, mcUpdate, mcReset, exEnvFlat, clampTo])

/-- An environment over ℚ whose declared action space is `[-2, 2]`,
wider than the default; used to separate the code's literal clamp
`max(min(action, 1.0), -1.0)` from the declared action-space bounds. -/
def exEnvWide : MCEnv ℚ :=
  { lower := (-10, -10)
    upper := (10, 10)
    actionLower := -2
    actionUpper := 2
    initialState := (0, 0)
    dydx := fun _ => 0
    hx := fun _ => 0
    gravitation := 0
    power := 1
    goal := 100
    horizon := 2 }

/-- C7 counterexample: with a declared action space of `[-2, 2]`, the
action `3/2` lies inside the declared bounds (so clamping to the declared
bounds leaves it at `3/2`), yet `_update` applies `1`, because the code
clamps to the literal constants `-1.0` and `1.0`, not to the declared
action-space bounds. -/
theorem mc_action_clamp_cex :
    exEnvWide.actionLower = -2 ∧ exEnvWide.actionUpper = 2 ∧
    clampTo exEnvWide.actionLower exEnvWide.actionUpper (3 / 2 : ℚ) = 3 / 2 ∧
    (mcUpdate exEnvWide (0, 0) (3 / 2 : ℚ)).1 = 1 ∧
    (1 : ℚ) ≠ 3 / 2 := by
  refine ⟨rfl, rfl, ?_, ?_, by norm_num⟩
  · norm_num [clampTo, exEnvWide]
  · norm_num [mcUpdate, clampTo, exEnvWide]

/-- C7 (amended): `_update` always succeeds and clamps the action to the
fixed interval `[-1, 1]` — the default action-space bounds — rather than
to the environment's declared action-space bounds; when the declared
bounds are the default `[-1, 1]`, this coincides with clamping to the
declared bounds, and the applied action always lies in `[-1, 1]`. -/
theorem mc_action_clamp_fixed_bounds {α : Type} [LinearOrderedField α]
    (env : MCEnv α) (s : α × α) (a : α) :
    (mcUpdate env s a).1 = clampTo (-1) 1 a ∧
    -1 ≤ (mcUpdate env s a).1 ∧ (mcUpdate env s a).1 ≤ 1 ∧
    (env.actionLower = -1 → env.actionUpper = 1 →
      (mcUpdate env s a).1 = clampTo env.actionLower env.actionUpper a) := by
  refine ⟨rfl, ?_, ?_, ?_⟩
  · exact (clampTo_le (-1) 1 a (by norm_num)).1
  · exact (clampTo_le (-1) 1 a (by norm_num)).2
  · intro hl hu
    rw [hl, hu]
    rfl

/-- Witness for `mc_action_clamp_fixed_bounds`: in the default-bounds
environment the applied action equals the declared-bounds clamp. -/
theorem mc_action_clamp_fixed_bounds_witness :
    (mcUpdate exEnvFlat (0, 0) (3 : ℚ)).1 =
      clampTo exEnvFlat.actionLower exEnvFlat.actionUpper 3 :=
  (mc_action_clamp_fixed_bounds exEnvFlat (0, 0) 3).2.2.2 rfl rfl

theorem mcUpdate_state_in_bounds {α : Type} [LinearOrderedField α]
    (env : MCEnv α) (h1 : env.lower.1 ≤ env.upper.1)
    (h2 : env.lower.2 ≤ env.upper.2) (s : α × α) (a : α) :
    stateInBounds env (mcUpdate env s a).2.1 := by
  dsimp [mcUpdate, stateInBounds]
  exact ⟨(clampTo_le _ _ _ h1).1, (clampTo_le _ _ _ h1).2,
    (clampTo_le _ _ _ h2).1, (clampTo_le _ _ _ h2).2⟩

theorem mcSteps_state_in_bounds {α : Type} [LinearOrderedField α]
    (env : MCEnv α) (h1 : env.lower.1 ≤ env.upper.1)
    (h2 : env.lower.2 ≤ env.upper.2) :
    ∀ (actions : List α) (s : α × α), stateInBounds env s →
      stateInBounds env (mcSteps env s actions) := by
  intro actions
  induction actions with
  | nil => intro s hs; exact hs
  | cons a rest ih =>
      intro s _
      exact ih (mcUpdate env s a).2.1 (mcUpdate_state_in_bounds env h1 h2 s a)

/-- C10: whenever the declared state-space bounds are ordered
(`lower ≤ upper` componentwise), every `_update` lands in bounds (both
position and velocity are clamped componentwise), hence any sequence of
steps from an in-bounds state stays in bounds; and `_reset` restores the
initial state, re-establishing the invariant when the initial state is in
bounds. -/
theorem mc_state_bounds_invariant {α : Type} [LinearOrderedField α]
    (env : MCEnv α) (h1 : env.lower.1 ≤ env.upper.1)
    (h2 : env.lower.2 ≤ env.upper.2) :
    (∀ (s : α × α) (a : α), stateInBounds env (mcUpdate env s a).2.1) ∧
    (∀ (s : α × α) (actions : List α), stateInBounds env s →
      stateInBounds env (mcSteps env s actions)) ∧
    mcReset env = env.initialState ∧
    (stateInBounds env env.initialState → stateInBounds env (mcReset env)) := by
  refine ⟨mcUpdate_state_in_bounds env h1 h2, ?_, rfl, fun h => h⟩
  intro s actions hs
  exact mcSteps_state_in_bounds env h1 h2 actions s hs

/-- Witness for `mc_state_bounds_invariant`: a concrete step of the flat
environment, driven by the out-of-range action 5, lands inside the
declared state-space bounds. -/
theorem mc_state_bounds_invariant_witness :
    stateInBounds exEnvFlat (mcUpdate exEnvFlat (0, 0) (5 : ℚ)).2.1 :=
  (mc_state_bounds_invariant exEnvFlat (by norm_num [exEnvFlat])
    (by norm_num [exEnvFlat])).1 (0, 0) 5

/-!
## Gradient clipping and the train op (A3C.py, `_Worker.make_train_op`)

`make_train_op` (lines 166-176) runs
`loc_grads, _ = tf.clip_by_global_norm(loc_grads, 5.0)` and applies the
clipped gradients to the global variables.  `tf.clip_by_global_norm`
rescales the gradient list by `clip_norm / global_norm` when the global
L2 norm exceeds `clip_norm`, and leaves it unchanged otherwise; the
gradient list is embedded as a flat list of real components.
-/

/-- Global L2 norm of a gradient: the square root of the sum of squared
components. -/
noncomputable def globalNorm (g : List ℝ) : ℝ :=
  Real.sqrt (g.map (fun x => x * x)).sum

/-- Embeds `tf.clip_by_global_norm`: scale uniformly by
`c / globalNorm g` when the norm exceeds `c`, else leave unchanged. -/
noncomputable def clipByGlobalNorm (g : List ℝ) (c : ℝ) : List ℝ :=
  if globalNorm g ≤ c then g
  else g.map (fun x => x * (c / globalNorm g))

/-- The clip-norm constant passed at A3C.py line 170. -/
noncomputable def trainOpClipNorm : ℝ := 5

/-- The update `make_train_op` hands to the optimizer: the local
gradients clipped with the fixed constant. -/
noncomputable def makeTrainOpUpdate (locGrads : List ℝ) : List ℝ :=
  clipByGlobalNorm locGrads trainOpClipNorm

theorem sumSq_map_mul (g : List ℝ) (t : ℝ) :
    ((g.map (fun x => x * t)).map (fun x => x * x)).sum =
      (t * t) * (g.map (fun x => x * x)).sum := by
  induction g with
  | nil => simp
  | cons x xs ih =>
      simp only [List.map_cons, List.sum_cons]
      rw [ih]
      ring

theorem globalNorm_map_mul (g : List ℝ) (t : ℝ) :
    globalNorm (g.map (fun x => x * t)) = |t| * globalNorm g := by
  unfold globalNorm
  rw [sumSq_map_mul]
  rw [show t * t = t ^ 2 by ring]
  rw [Real.sqrt_mul (sq_nonneg t)]
  rw [Real.sqrt_sq_eq_abs]

theorem globalNorm_three_four : globalNorm [3, 4] = 5 := by
  unfold globalNorm
  norm_num
  rw [show (25 : ℝ) = 5 ^ 2 by norm_num, Real.sqrt_sq (by norm_num)]

/-- C2: for every gradient and positive clip bound `c`, clipping leaves
a gradient of norm at most `c` unchanged; a gradient of norm above `c`
is rescaled to a positive multiple of itself (same direction) whose norm
is exactly `c`; the train op clips with the constant `5.0`; and the
gradient `[3, 4]` under bound `5/2` becomes `[3/2, 2]`. -/
theorem a3c_clip_global_norm_spec (g : List ℝ) (c : ℝ) (hc : 0 < c) :
    (globalNorm g ≤ c → clipByGlobalNorm g c = g) ∧
    (c < globalNorm g →
      globalNorm (clipByGlobalNorm g c) = c ∧
      ∃ t : ℝ, 0 < t ∧ clipByGlobalNorm g c = g.map (fun x => x * t)) ∧
    makeTrainOpUpdate g = clipByGlobalNorm g 5 ∧
    clipByGlobalNorm [3, 4] (5 / 2) = [3 / 2, 2] := by
  refine ⟨?_, ?_, rfl, ?_⟩
  · intro h
    unfold clipByGlobalNorm
    rw [if_pos h]
  · intro h
    have hn : 0 < globalNorm g := lt_trans hc h
    have hclip : clipByGlobalNorm g c = g.map (fun x => x * (c / globalNorm g)) := by
      unfold clipByGlobalNorm
      rw [if_neg (not_le.mpr h)]
    refine ⟨?_, c / globalNorm g, div_pos hc hn, hclip⟩
    rw [hclip, globalNorm_map_mul, abs_of_pos (div_pos hc hn)]
    field_simp
  · unfold clipByGlobalNorm
    rw [globalNorm_three_four]
    rw [if_neg (by norm_num)]
    norm_num

/-- Witness for `a3c_clip_global_norm_spec`: the end-to-end scenario of
the spec, gradient `[3, 4]` with clip bound `5/2` rescaled to `[3/2, 2]`. -/
theorem a3c_clip_global_norm_spec_witness :
    clipByGlobalNorm [3, 4] (5 / 2) = [3 / 2, 2] :=
  (a3c_clip_global_norm_spec [3, 4] (5 / 2) (by norm_num)).2.2.2

/-!
## GlobalStep under serialized applies (spec sections 3, 4.1, 4.5)

Modelled from the spec: the Parameter Store's `apply` and its GlobalStep
counter are implemented by the external TensorFlow optimizer invoked at
A3C.py line 175 (`apply_gradients(..., global_step=get_global_step)`),
not by code under src/.  Per the spec, `apply` calls are serialized at
the store and each successful apply increments GlobalStep exactly once
and returns the new value; a concurrent execution is therefore an
arbitrary interleaving, i.e. a sequence of apply events tagged with the
contributing worker's id.
-/

/-- Runs a serialized sequence of applies, one per worker id in the
list: returns the final GlobalStep value and the list of step values the
applies returned, in order. -/
def runApplies (init : ℕ) : List ℕ → ℕ × List ℕ
  | [] => (init, [])
  | _ :: rest =>
      let r := runApplies (init + 1) rest
      (r.1, (init + 1) :: r.2)

/-- C4: after `k` successful serialized applies, GlobalStep equals its
initial value plus `k` regardless of which workers contributed; the
returned step values are exactly the consecutive values
`init+1, ..., init+k` (no value skipped or repeated) and are strictly
increasing. -/
theorem global_step_serialized_applies (init : ℕ) (workers : List ℕ) :
    (runApplies init workers).1 = init + workers.length ∧
    (runApplies init workers).2 = List.range' (init + 1) workers.length ∧
    (runApplies init workers).2.Pairwise (· < ·) := by
  have key : ∀ (ws : List ℕ) (i : ℕ),
      (runApplies i ws).1 = i + ws.length ∧
      (runApplies i ws).2 = List.range' (i + 1) ws.length := by
    intro ws
    induction ws with
    | nil => intro i; exact ⟨rfl, rfl⟩
    | cons w rest ih =>
        intro i
        obtain ⟨ih1, ih2⟩ := ih (i + 1)
        constructor
        · simp only [runApplies, ih1, List.length_cons]
          omega
        · simp only [runApplies, ih2, List.length_cons, List.range'_succ]
  obtain ⟨h1, h2⟩ := key workers init
  refine ⟨h1, h2, ?_⟩
  rw [h2]
  exact List.pairwise_lt_range' (init + 1) workers.length

/-!
## The worker's run cycle (A3C.py, `_Worker.run`, lines 102-146)

`_Worker.__init__` (lines 69-100) assigns exactly the attributes listed
below on the worker object, and `run` additionally touches
`local_policy` before the rollout.  At line 110 the rollout is invoked
as `self.env.rollout(self.policy)`.
-/

/-- The attributes `_Worker.__init__` assigns on the worker instance
(A3C.py lines 69-100); no other code path assigns worker attributes
before the rollout call in `run`. -/
def workerInitAttrs : List String :=
  ["name", "env", "global_policy", "global_p_net", "global_v_net",
   "discount", "local_policy", "local_p_net", "local_v_net",
   "copy_params_op", "p_net_train", "v_net_train", "state"]

/-- The attribute `_Worker.run` reads to obtain the rollout policy at
A3C.py line 110 (`self.env.rollout(self.policy)`). -/
def workerRolloutPolicyAttr : String := "policy"

/-- C5: the attribute `run` passes to the rollout is not among the
attributes the worker possesses, while the freshly synced local copy
`local_policy` is; so the access `self.policy` at A3C.py line 110 fails
(AttributeError) instead of sampling with the synced local policy, and
the claimed sync-then-sample cycle is the intent the code misses. -/
theorem worker_run_policy_attribute_missing :
    workerRolloutPolicyAttr ∉ workerInitAttrs ∧
    "local_policy" ∈ workerInitAttrs := by
  decide

/-!
## Coordinator construction checks (A3C.py, `A3C.__init__`, lines 33-48)

The constructor first raises `NotSupportedException(error.NO_TF_SUPPORT)`
when the TensorFlow backend is missing, then raises
`ValueError` when the supplied policy has no `sess` attribute, and only
then builds the global networks.  No worker is created or started
anywhere in the constructor.
-/

/-- The two configuration errors `A3C.__init__` can raise, each naming
the missing prerequisite capability. -/
inductive A3CInitError where
  | noTFSupport
  | policyNeedsSess
deriving DecidableEq

/-- Observable construction events of `A3C.__init__`. -/
inductive A3CEvent where
  | networksCreated
  | workerCreated
  | workerStarted
deriving DecidableEq

/-- Embeds `A3C.__init__`: check the backend, check the policy
interface, then create the global networks; return the raised error, if
any, together with the events that occurred. -/
def a3cInit (tfAvailable policyHasSess : Bool) :
    Except A3CInitError Unit × List A3CEvent :=
  if tfAvailable = false then (Except.error A3CInitError.noTFSupport, [])
  else if policyHasSess = false then
    (Except.error A3CInitError.policyNeedsSess, [])
  else (Except.ok (), [A3CEvent.networksCreated])

/-- C8: a missing backend raises the backend error, a policy without
`sess` raises the interface error (each error names the missing
prerequisite), in both cases before anything is constructed; with both
prerequisites present construction succeeds; and no worker is ever
created or started during construction. -/
theorem a3c_init_prerequisites (tfAvailable policyHasSess : Bool) :
    (tfAvailable = false →
      (a3cInit tfAvailable policyHasSess).1 = Except.error A3CInitError.noTFSupport ∧
      (a3cInit tfAvailable policyHasSess).2 = []) ∧
    (tfAvailable = true → policyHasSess = false →
      (a3cInit tfAvailable policyHasSess).1 = Except.error A3CInitError.policyNeedsSess ∧
      (a3cInit tfAvailable policyHasSess).2 = []) ∧
    (tfAvailable = true → policyHasSess = true →
      (a3cInit tfAvailable policyHasSess).1 = Except.ok ()) ∧
    A3CEvent.workerCreated ∉ (a3cInit tfAvailable policyHasSess).2 ∧
    A3CEvent.workerStarted ∉ (a3cInit tfAvailable policyHasSess).2 := by
  cases tfAvailable <;> cases policyHasSess <;> simp [a3cInit]

/-- Witness for `a3c_init_prerequisites`: with the backend missing the
constructor reports the backend error and creates nothing. -/
theorem a3c_init_prerequisites_witness :
    (a3cInit false true).1 = Except.error A3CInitError.noTFSupport ∧
    (a3cInit false true).2 = [] :=
  (a3c_init_prerequisites false true).1 rfl

/-!
## Monitor hook pairing (monitor.py)

Every monitoring scope in monitor.py is a `@contextmanager` generator of
the shape

    self._before_x()
    yield self
    self._after_x()

with no try/finally.  Python's contextmanager semantics: on normal
completion of the `with` body the generator resumes and runs the
post-yield call; when the body raises, the exception is thrown into the
generator at the yield point and, with no enclosing try/finally, the
post-yield call never runs and the exception propagates.
-/

/-- The five monitored scopes of monitor.py. -/
inductive MonitorScope where
  | optimize
  | step
  | rollout
  | update
  | reset
deriving DecidableEq

/-- Hook invocations observable from a monitored scope. -/
inductive MonitorHook where
  | before (s : MonitorScope)
  | after (s : MonitorScope)
deriving DecidableEq

/-- Body outcome of a monitored scope: normal completion or an
exception raised inside the body. -/
inductive BodyOutcome where
  | ok
  | exn
deriving DecidableEq

/-- Embeds one `monitor_x` context manager of monitor.py: the hook calls
that run, paired with the outcome that propagates to the caller. -/
def monitorScope (s : MonitorScope) (body : BodyOutcome) :
    List MonitorHook × BodyOutcome :=
  match body with
  | BodyOutcome.ok => ([MonitorHook.before s, MonitorHook.after s], BodyOutcome.ok)
  | BodyOutcome.exn => ([MonitorHook.before s], BodyOutcome.exn)

/-- C9 counterexample: when the monitored rollout body raises, the
`_after_rollout` hook does not run (the context managers in monitor.py
have no try/finally), so the paired end hook does not run on every exit
path. -/
theorem monitor_after_hook_cex :
    MonitorHook.after MonitorScope.rollout ∉
      (monitorScope MonitorScope.rollout BodyOutcome.exn).1 ∧
    (monitorScope MonitorScope.rollout BodyOutcome.exn).2 = BodyOutcome.exn := by
  decide

/-- C9 (amended): for every monitored scope, the before hook always
runs, but the paired after hook runs exactly on the normal-completion
path; on the exception path it is skipped and the exception propagates. -/
theorem monitor_after_hook_normal_exit (s : MonitorScope) (body : BodyOutcome) :
    MonitorHook.before s ∈ (monitorScope s body).1 ∧
    (MonitorHook.after s ∈ (monitorScope s body).1 ↔ body = BodyOutcome.ok) ∧
    (monitorScope s body).2 = body := by
  cases body <;> simp [monitorScope]
